import Mathlib

/-!
# Verification of the calculator engine of MederX/calculator-telegram-bot

Shallow embedding of the expression evaluator in `main.go`
(`NewCalculator`, `validateExpression`, `parseExpression`, `Calculate`).

Modelling conventions:
* A Go `string` is modelled as a `List Char` of Unicode scalar values.
  Go's byte-level `len` is modelled by `goLen` (sum of UTF-8 sizes); the
  byte-level scanning loops of `parseExpression` coincide with rune-level
  scanning because every operator symbol searched for is either ASCII
  (whose byte occurrences in valid UTF-8 are exactly its rune occurrences)
  or a full multi-byte sequence (`×`, `÷`) which in valid UTF-8 only occurs
  at rune boundaries.
* `float64` values are modelled by exact rationals `ℚ`.  Decimal literals
  within the validated character set (digits, dot, sign; no exponent
  letters) parse to rationals whose zero-ness and parse-success agree with
  `strconv.ParseFloat`; IEEE-754 rounding, overflow to infinity and NaN are
  outside the model, so the `math.IsInf` / `math.IsNaN` branches of
  `Calculate` (which can only fire through `math.Pow`) have no counterpart
  here and the corresponding error kinds are unreachable in the model.
* Go's error values (distinct `fmt.Errorf` messages) are modelled by the
  error taxonomy `CalcError`; `Calculate` returns the same
  `(string, error)` pair shape as the source: `String × Option CalcError`.
-/

attribute [local semireducible] Rat.add Rat.mul Rat.sub Rat.inv

/-- Classified error kinds of the evaluator, one per distinct error site in
`main.go` (the two division-by-zero messages, for `/`-`÷` and for `%`, are
one kind, as in the spec taxonomy). -/
inductive CalcError : Type
  /-- "выражение слишком длинное (максимум 100 символов)" -/
  | tooLong
  /-- "пустое выражение" -/
  | emptyExpr
  /-- "выражение содержит недопустимые символы" -/
  | invalidChars
  /-- "операция не найдена или неправильный формат" -/
  | noOperator
  /-- "неподдерживаемая операция: %s" -/
  | unsupportedOp
  /-- "деление на ноль" / "деление на ноль при вычислении остатка" -/
  | divByZero
  /-- "результат слишком велик" (unreachable in the exact-rational model) -/
  | resultTooLarge
  /-- "результат не является числом" (unreachable in the exact-rational model) -/
  | resultNaN
deriving DecidableEq, Repr

/-- Convenience: the character list of a Lean string literal, standing for
the Go string with those runes. -/
def goStr (s : String) : List Char := s.data

/-- UTF-8 encoded size of one rune, in bytes. -/
def utf8Len (c : Char) : Nat :=
  if c.toNat < 128 then 1
  else if c.toNat < 2048 then 2
  else if c.toNat < 65536 then 3
  else 4

/-- Go's `len(expr)`: the UTF-8 byte length of the string. -/
def goLen (s : List Char) : Nat := (s.map utf8Len).sum

/-- The characters matched by `\s` in Go's regexp (RE2 Perl class):
tab, newline, form feed, carriage return, space. -/
def isRegexSpace (c : Char) : Bool :=
  c == '\t' || c == '\n' || c.toNat == 12 || c.toNat == 13 || c == ' '

/-- `unicode.IsSpace`: Unicode White_Space property, used by
`strings.TrimSpace`. -/
def isUnicodeSpace (c : Char) : Bool :=
  c == ' ' || c == '\t' || c == '\n' || c.toNat == 11 || c.toNat == 12 ||
  c.toNat == 13 || c.toNat == 133 || c.toNat == 160 || c.toNat == 5760 ||
  (decide (8192 ≤ c.toNat) && decide (c.toNat ≤ 8202)) ||
  c.toNat == 8232 || c.toNat == 8233 || c.toNat == 8239 ||
  c.toNat == 8287 || c.toNat == 12288

/-- `strings.TrimSpace`: drop Unicode white space from both ends. -/
def trimSpace (s : List Char) : List Char :=
  ((s.dropWhile isUnicodeSpace).reverse.dropWhile isUnicodeSpace).reverse

/-- One character of the validator's class `[0-9+\-*/×÷^%().\s]`. -/
def isValidExprChar (c : Char) : Bool :=
  (decide ('0' ≤ c) && decide (c ≤ '9')) ||
  c == '+' || c == '-' || c == '*' || c == '/' || c == '×' || c == '÷' ||
  c == '^' || c == '%' || c == '(' || c == ')' || c == '.' ||
  isRegexSpace c

/-- `validateExpression` from `main.go`: length check (Go `len`, i.e. UTF-8
bytes, against `maxExpressionLength = 100`), then emptiness after
`TrimSpace`, then the character-class regexp `^[0-9+\-*/×÷^%().\s]+$`
(the `+` needs a non-empty string, which is guaranteed once the emptiness
check passed). -/
def validateExpression (s : List Char) : Option CalcError :=
  if 100 < goLen s then some .tooLong
  else if trimSpace s = [] then some .emptyExpr
  else if s.all isValidExprChar then none
  else some .invalidChars

/- ### strconv.ParseFloat -/

/-- Numeric value of a list of decimal digit characters. -/
def digitsVal (ds : List Char) : Nat :=
  ds.foldl (fun n c => 10 * n + (c.toNat - 48)) 0

/-- Mantissa part of `strconv.ParseFloat`'s decimal grammar:
`digits [. digits]` or `. digits`, returning the value and the unconsumed
rest.  (Hexadecimal floats, `inf`/`nan` words and underscores are not
modelled: every character they need is rejected by `validateExpression`,
and no theorem below depends on them.) -/
def parseMantissa (t : List Char) : Option (ℚ × List Char) :=
  if (t.dropWhile Char.isDigit).head? = some '.' then
    if t.takeWhile Char.isDigit = [] ∧
        (t.dropWhile Char.isDigit).tail.takeWhile Char.isDigit = [] then none
    else some ((digitsVal (t.takeWhile Char.isDigit) : ℚ) +
      (digitsVal ((t.dropWhile Char.isDigit).tail.takeWhile Char.isDigit) : ℚ) /
        10 ^ ((t.dropWhile Char.isDigit).tail.takeWhile Char.isDigit).length,
      (t.dropWhile Char.isDigit).tail.dropWhile Char.isDigit)
  else if t.takeWhile Char.isDigit = [] then none
  else some ((digitsVal (t.takeWhile Char.isDigit) : ℚ), t.dropWhile Char.isDigit)

/-- Exponent part after `e`/`E`: optional sign then at least one digit,
consuming the whole remainder. -/
def parseExponent (t : List Char) : Option ℤ :=
  if t.head? = some '+' then
    if t.tail ≠ [] ∧ t.tail.all Char.isDigit then some (digitsVal t.tail) else none
  else if t.head? = some '-' then
    if t.tail ≠ [] ∧ t.tail.all Char.isDigit then some (-(digitsVal t.tail : ℤ)) else none
  else if t ≠ [] ∧ t.all Char.isDigit then some (digitsVal t) else none

/-- Unsigned decimal number: mantissa with optional `e`/`E` exponent,
consuming the whole input. -/
def parseUnsigned (t : List Char) : Option ℚ :=
  match parseMantissa t with
  | none => none
  | some (m, rest) =>
    if rest = [] then some m
    else if rest.head? = some 'e' ∨ rest.head? = some 'E' then
      (parseExponent rest.tail).map (fun ex => m * (10 : ℚ) ^ ex)
    else none

/-- `strconv.ParseFloat(s, 64)` on the decimal grammar, with exact rational
value (binary rounding not modelled). -/
def parseFloat (t : List Char) : Option ℚ :=
  if t.head? = some '+' then parseUnsigned t.tail
  else if t.head? = some '-' then (parseUnsigned t.tail).map (fun q => -q)
  else parseUnsigned t

/- ### parseExpression -/

/-- The candidate position check of the `+`/`-` loop body in
`parseExpression` (`main.go` lines 83-98): at index `i`, the character must
be the operator, the preceding character must be a digit `'0'`-`'9'` or
`')'`, the right part must be non-empty, and both parts must parse as
floats. -/
def signedSplitAt (s : List Char) (op : Char) (i : Nat) : Option (ℚ × ℚ) :=
  match s.get? i with
  | none => none
  | some c =>
    if c = op then
      match s.get? (i - 1) with
      | none => none
      | some p =>
        if ('0' ≤ p ∧ p ≤ '9') ∨ p = ')' then
          if s.drop (i + 1) = [] then none
          else
            match parseFloat (s.take i), parseFloat (s.drop (i + 1)) with
            | some a, some b => some (a, b)
            | _, _ => none
        else none
    else none

/-- The `for i := 1; i < len(expr); i++` loop of `parseExpression` over an
explicit list of indices, returning the first qualifying index and the two
parsed operands. -/
def scanSignedAux (s : List Char) (op : Char) : List Nat → Option (Nat × ℚ × ℚ)
  | [] => none
  | i :: rest =>
    match signedSplitAt s op i with
    | some (a, b) => some (i, a, b)
    | none => scanSignedAux s op rest

/-- Scan for a `+`/`-` binary operator at indices `1 .. len-1`. -/
def scanSigned (s : List Char) (op : Char) : Option (Nat × ℚ × ℚ) :=
  scanSignedAux s op (List.range' 1 (s.length - 1))

/-- First index at which `pat` occurs as a sublist, counting from `i`
(`strings.Index`, returning `none` for Go's `-1`). -/
def firstIndexOfAux (pat : List Char) : List Char → Nat → Option Nat
  | [], i => if pat.isPrefixOf ([] : List Char) then some i else none
  | c :: rest, i =>
    if pat.isPrefixOf (c :: rest) then some i else firstIndexOfAux pat rest (i + 1)

/-- `strings.Index(s, pat)` (as an `Option`). -/
def firstIndexOf (pat s : List Char) : Option Nat := firstIndexOfAux pat s 0

/-- The non-sign branch of `parseExpression` (`main.go` lines 100-110):
take the first occurrence of the operator, require it not at position 0,
require a non-empty right part, and parse both parts. -/
def unsignedSplit (pat : List Char) (s : List Char) : Option (ℚ × ℚ) :=
  match firstIndexOf pat s with
  | none => none
  | some idx =>
    if 0 < idx then
      if s.drop (idx + pat.length) = [] then none
      else
        match parseFloat (s.take idx), parseFloat (s.drop (idx + pat.length)) with
        | some a, some b => some (a, b)
        | _, _ => none
    else none

/-- The operator priority list of `parseExpression`. -/
def operators : List String := ["**", "÷", "×", "^", "%", "/", "*", "+", "-"]

/-- One iteration of the operator loop: `+`/`-` use the sign-aware scan,
every other operator uses the first-occurrence split. -/
def tryOp (op : String) (s : List Char) : Option (ℚ × ℚ) :=
  if op = "-" then (scanSigned s '-').map (fun x => (x.2.1, x.2.2))
  else if op = "+" then (scanSigned s '+').map (fun x => (x.2.1, x.2.2))
  else unsignedSplit op.data s

/-- The operator loop: first operator (in priority order) that yields a
structural match wins. -/
def tryOps : List String → List Char → Option (ℚ × String × ℚ)
  | [], _ => none
  | op :: rest, s =>
    match tryOp op s with
    | some (a, b) => some (a, op, b)
    | none => tryOps rest s

/-- `parseExpression` from `main.go`: remove every space character
(`strings.ReplaceAll(expr, " ", "")` — only U+0020, not other white
space), then scan the operators in priority order.  `none` stands for the
"операция не найдена" error. -/
def parseExpression (s : List Char) : Option (ℚ × String × ℚ) :=
  tryOps operators (s.filter (fun c => c != ' '))

/- ### The operation table of NewCalculator -/

/-- Truncation toward zero, as in C's `fmod` contract used by `math.Mod`. -/
def ratTrunc (x : ℚ) : ℤ := if 0 ≤ x then ⌊x⌋ else ⌈x⌉

/-- `math.Mod(a, b)` for finite arguments and `b ≠ 0`: the IEEE remainder
whose sign follows the dividend (`fmod`), exact on rationals. -/
def goMod (a b : ℚ) : ℚ := a - b * (ratTrunc (a / b) : ℚ)

/-- `math.Pow(a, b)` restricted to the exact-rational model: exact for
integer exponents of non-zero bases.  The cases with irrational or
non-finite value (fractional exponents, `0` to a negative power, overflow)
are outside the model; the placeholder value `0` is returned there and no
theorem below relies on it (see the C6 discussion). -/
def mathPow (a b : ℚ) : ℚ := if b.den = 1 then a ^ b.num else 0

/-- The `supportedOps` map of `NewCalculator`: operator string to binary
function; the division and remainder closures reject a zero right operand
with the division-by-zero error. -/
def supportedOps (op : String) : Option (ℚ → ℚ → Except CalcError ℚ) :=
  match op with
  | "+" => some (fun a b => .ok (a + b))
  | "-" => some (fun a b => .ok (a - b))
  | "*" => some (fun a b => .ok (a * b))
  | "×" => some (fun a b => .ok (a * b))
  | "/" => some (fun a b => if b = 0 then .error .divByZero else .ok (a / b))
  | "÷" => some (fun a b => if b = 0 then .error .divByZero else .ok (a / b))
  | "^" => some (fun a b => .ok (mathPow a b))
  | "**" => some (fun a b => .ok (mathPow a b))
  | "%" => some (fun a b => if b = 0 then .error .divByZero else .ok (goMod a b))
  | _ => none

/- ### Result formatting -/

/-- Decimal digit characters of `n`, most significant first (structural
fuel recursion so that the kernel can evaluate it). -/
def natCharsAux : Nat → Nat → List Char
  | 0, _ => []
  | fuel + 1, n =>
    if n < 10 then [Char.ofNat (48 + n)]
    else natCharsAux fuel (n / 10) ++ [Char.ofNat (48 + n % 10)]

/-- Decimal digit characters of `n`. -/
def natChars (n : Nat) : List Char := natCharsAux (n + 1) n

/-- `fmt.Sprintf("%.0f", r)` for an integer-valued rational: plain decimal
rendering with optional minus sign. -/
def renderInt (n : ℤ) : String :=
  ⟨(if n < 0 then ['-'] else []) ++ natChars n.natAbs⟩

/-- The branch condition `result == float64(int64(result))` of `Calculate`
in the exact-rational model: an integer-valued rational whose truncation to
`int64` round-trips, i.e. an integer in `[-2^63, 2^63)`.  (Out of that
range Go's conversion is saturating/implementation-defined and never
round-trips back to the out-of-range value.) -/
def isInt64Exact (q : ℚ) : Bool :=
  q.den == 1 && decide (-(2 ^ 63) ≤ q.num) && decide (q.num < 2 ^ 63)

/-- Number of decimal digits of `n`. -/
def digits10 (n : Nat) : Nat := (natChars n).length

/-- Decimal exponent of a positive rational: the `e` with
`10^e ≤ x < 10^(e+1)`, computed from the digit counts of numerator and
denominator with one comparison to adjust. -/
def exp10 (x : ℚ) : ℤ :=
  if (10 : ℚ) ^ ((digits10 x.num.natAbs : ℤ) - (digits10 x.den : ℤ)) ≤ x then
    (digits10 x.num.natAbs : ℤ) - (digits10 x.den : ℤ)
  else (digits10 x.num.natAbs : ℤ) - (digits10 x.den : ℤ) - 1

/-- Round to the nearest integer, ties to even — the rounding used by
`strconv`'s fixed-precision decimal conversion behind `%.6g`. -/
def roundHalfEven (x : ℚ) : ℤ :=
  if x - (⌊x⌋ : ℚ) < 1 / 2 then ⌊x⌋
  else if (1 : ℚ) / 2 < x - (⌊x⌋ : ℚ) then ⌊x⌋ + 1
  else if ⌊x⌋ % 2 = 0 then ⌊x⌋ else ⌊x⌋ + 1

/-- Drop trailing `'0'` characters. -/
def dropTrailingZeros (l : List Char) : List Char :=
  (l.reverse.dropWhile (fun c => c == '0')).reverse

/-- Exponent digits of `%g`: at least two digits. -/
def expDigits (e : Nat) : List Char :=
  if e < 10 then '0' :: natChars e else natChars e

/-- Scientific rendering of `%.6g`: `d.dddddde±XX` with trailing zeros of
the fraction removed. -/
def renderSci (ds : List Char) (e : ℤ) : List Char :=
  (match ds with
   | [] => []
   | d :: rest =>
     if dropTrailingZeros rest = [] then [d]
     else d :: '.' :: dropTrailingZeros rest) ++
  'e' :: (if e < 0 then '-' else '+') :: expDigits e.natAbs

/-- Fixed-point rendering of `%.6g` for `-4 ≤ e ≤ 5` over the six
significant digits `ds`, trailing fractional zeros removed. -/
def renderFixed (ds : List Char) (e : ℤ) : List Char :=
  if 0 ≤ e then
    if dropTrailingZeros (ds.drop (e.toNat + 1)) = [] then ds.take (e.toNat + 1)
    else ds.take (e.toNat + 1) ++ '.' :: dropTrailingZeros (ds.drop (e.toNat + 1))
  else '0' :: '.' :: (List.replicate (e.natAbs - 1) '0' ++ dropTrailingZeros ds)

/-- `fmt.Sprintf("%.6g", r)` in the exact-rational model: six significant
decimal digits, fixed notation for decimal exponents in `[-4, 5]` and
scientific notation otherwise, trailing zeros removed. -/
def fmt6g (r : ℚ) : String :=
  if r = 0 then "0"
  else
    ⟨(if r < 0 then ['-'] else []) ++
      (if roundHalfEven (|r| * (10 : ℚ) ^ (5 - exp10 |r|)) = 10 ^ 6 then
        (if (exp10 |r| + 1 < -4 ∨ 6 ≤ exp10 |r| + 1) then
          renderSci (natChars (10 ^ 5)) (exp10 |r| + 1)
        else renderFixed (natChars (10 ^ 5)) (exp10 |r| + 1))
      else
        (if (exp10 |r| < -4 ∨ 6 ≤ exp10 |r|) then
          renderSci (natChars (roundHalfEven (|r| * (10 : ℚ) ^ (5 - exp10 |r|))).toNat) (exp10 |r|)
        else renderFixed (natChars (roundHalfEven (|r| * (10 : ℚ) ^ (5 - exp10 |r|))).toNat) (exp10 |r|)))⟩

/-- The result formatting of `Calculate` (`main.go` lines 143-146):
`%.0f` when `result == float64(int64(result))`, else `%.6g`. -/
def formatResult (r : ℚ) : String :=
  if isInt64Exact r then renderInt r.num else fmt6g r

/-- `Calculate` from `main.go`: validate, tokenize, look the operator up in
the table, apply it, and format.  Like the source, it returns the pair
`(result string, error)`, the string being empty on every error path.
The `math.IsInf` / `math.IsNaN` re-checks of the source (lines 136-141)
have no counterpart in the exact-rational model, where every value is
finite (see the module comment and C6). -/
def Calculate (s : List Char) : String × Option CalcError :=
  match validateExpression s with
  | some e => ("", some e)
  | none =>
    match parseExpression s with
    | none => ("", some .noOperator)
    | some (a, op, b) =>
      match supportedOps op with
      | none => ("", some .unsupportedOp)
      | some f =>
        match f a b with
        | .error e => ("", some e)
        | .ok r => (formatResult r, none)

/- ### Helper lemmas -/

/-- The validator reports `tooLong` exactly on byte length above 100. -/
theorem validate_tooLong_iff (s : List Char) :
    validateExpression s = some CalcError.tooLong ↔ 100 < goLen s := by
  unfold validateExpression
  split_ifs <;> simp_all

/-- A successful table application never came from the division/remainder
zero checks; a failing one is always the division-by-zero error. -/
theorem supportedOps_err {op : String} {f : ℚ → ℚ → Except CalcError ℚ}
    {a b : ℚ} {e : CalcError} (h1 : supportedOps op = some f)
    (h2 : f a b = Except.error e) : e = CalcError.divByZero := by
  unfold supportedOps at h1
  split at h1 <;> cases h1 <;> simp only [] at h2 <;>
    first
      | cases h2
      | (split at h2 <;> simp_all)

/-- The operator returned by the scan loop is one of the operators tried. -/
theorem tryOps_mem {L : List String} {s : List Char} {a b : ℚ} {op : String}
    (h : tryOps L s = some (a, op, b)) : op ∈ L := by
  induction L with
  | nil => simp [tryOps] at h
  | cons hd tl ih =>
    unfold tryOps at h
    rcases ht : tryOp hd s with _ | ⟨x, y⟩ <;> rw [ht] at h
    · exact List.mem_cons_of_mem _ (ih h)
    · cases h
      exact List.mem_cons_self _ _

/-- The operator returned by `parseExpression` is from the priority list. -/
theorem parseExpression_mem {s : List Char} {a b : ℚ} {op : String}
    (h : parseExpression s = some (a, op, b)) : op ∈ operators :=
  tryOps_mem h

/-- Every operator of the priority list is a key of the operation table. -/
theorem supportedOps_total {op : String} (h : op ∈ operators) :
    ∃ f, supportedOps op = some f := by
  fin_cases h <;> exact ⟨_, rfl⟩

/-- On every error path `Calculate` returns the empty string. -/
theorem Calculate_shape (s : List Char) :
    (Calculate s).2 = none ∨ (Calculate s).1 = "" := by
  unfold Calculate
  rcases hv : validateExpression s with _ | e
  · rcases hp : parseExpression s with _ | ⟨a, op, b⟩
    · simp
    · rcases ho : supportedOps op with _ | f
      · simp [ho]
      · rcases hf : f a b with e | r <;> simp [ho, hf]
  · simp

/-- The validator never produces the downstream error kinds. -/
theorem validate_cases {s : List Char} {e : CalcError}
    (h : validateExpression s = some e) :
    e = CalcError.tooLong ∨ e = CalcError.emptyExpr ∨ e = CalcError.invalidChars := by
  unfold validateExpression at h
  split_ifs at h <;> simp_all

/- ### Claims -/

/-- C2, counterexample: `Calculate "abc"` does not fail with the
`NoOperatorFound` kind. -/
theorem C2_counterexample :
    (Calculate (goStr "abc")).2 ≠ some CalcError.noOperator := by decide

/-- C2, amended: `Calculate "abc"` fails with `InvalidCharacters` — the
letters are outside the validator's character class, so the input never
reaches the tokenizer. -/
theorem C2_theorem :
    Calculate (goStr "abc") = ("", some CalcError.invalidChars) := by decide

/-- C3, counterexample: 51 `×` characters are at most 100 characters, yet
`Calculate` fails with `TooLong`, because Go's `len` counts UTF-8 bytes
(102 here). -/
theorem C3_counterexample :
    (List.replicate 51 '×').length ≤ 100 ∧
    (Calculate (List.replicate 51 '×')).2 = some CalcError.tooLong := by decide

/-- C3, amended: `Calculate` fails with `TooLong` exactly when the UTF-8
byte length of the input exceeds 100; since the length test is the first
check of `validateExpression`, this holds for every input, including empty
and invalid-character ones. -/
theorem C3_theorem (s : List Char) :
    (Calculate s).2 = some CalcError.tooLong ↔ 100 < goLen s := by
  constructor
  · intro h
    rcases hv : validateExpression s with _ | e
    · exfalso
      rcases hp : parseExpression s with _ | ⟨a, op, b⟩
      · simp [Calculate, hv, hp] at h
      · obtain ⟨f, hf⟩ := supportedOps_total (parseExpression_mem hp)
        rcases he : f a b with e | r
        · have hdz := supportedOps_err hf he
          simp [Calculate, hv, hp, hf, he, hdz] at h
        · simp [Calculate, hv, hp, hf, he] at h
    · simp [Calculate, hv] at h
      rw [h] at hv
      exact (validate_tooLong_iff s).mp hv
  · intro h
    have hv := (validate_tooLong_iff s).mpr h
    simp [Calculate, hv]

/-- C9: tokenization only ever returns an operator from the fixed priority
list, each of which is a key of the operation table, so `Calculate` never
returns `UnsupportedOperator`. -/
theorem C9_theorem (s : List Char) :
    (∀ a op b, parseExpression s = some (a, op, b) → op ∈ operators) ∧
    (Calculate s).2 ≠ some CalcError.unsupportedOp := by
  refine ⟨fun a op b h => parseExpression_mem h, ?_⟩
  intro hbad
  rcases hv : validateExpression s with _ | e
  · rcases hp : parseExpression s with _ | ⟨a, op, b⟩
    · simp [Calculate, hv, hp] at hbad
    · obtain ⟨f, hf⟩ := supportedOps_total (parseExpression_mem hp)
      rcases he : f a b with e | r
      · have hdz := supportedOps_err hf he
        simp [Calculate, hv, hp, hf, he, hdz] at hbad
      · simp [Calculate, hv, hp, hf, he] at hbad
  · simp [Calculate, hv] at hbad
    rw [hbad] at hv
    rcases validate_cases hv with h | h | h <;> cases h

/-- C9, witness: on `"2+3"` tokenization succeeds with `"+"`, which is in
the priority list, and `Calculate` does not fail with
`UnsupportedOperator`. -/
theorem C9_witness :
    parseExpression (goStr "2+3") = some (2, "+", 3) ∧ "+" ∈ operators ∧
    (Calculate (goStr "2+3")).2 ≠ some CalcError.unsupportedOp :=
  ⟨by decide, (C9_theorem (goStr "2+3")).1 2 "+" 3 (by decide),
    (C9_theorem (goStr "2+3")).2⟩

/-- C10: whenever `Calculate` returns an error of any kind the result
string is empty, and a non-empty result string comes with no error. -/
theorem C10_theorem (s : List Char) :
    (∀ e, (Calculate s).2 = some e → (Calculate s).1 = "") ∧
    ((Calculate s).1 ≠ "" → (Calculate s).2 = none) := by
  rcases Calculate_shape s with h | h
  · refine ⟨fun e he => ?_, fun _ => h⟩
    rw [h] at he
    cases he
  · exact ⟨fun e _ => h, fun hne => absurd h hne⟩

/-- C10, witness: on the failing input `"1/0"` the error is division by
zero and the result string is empty. -/
theorem C10_witness :
    (Calculate (goStr "1/0")).2 = some CalcError.divByZero ∧
    (Calculate (goStr "1/0")).1 = "" :=
  ⟨by decide, (C10_theorem (goStr "1/0")).1 CalcError.divByZero (by decide)⟩

/-- C5: for an expression that passes validation and tokenizes as a
division (`/`, `÷`) or remainder (`%`), a zero right operand makes
`Calculate` fail with `DivisionByZero` and no result string, while a
non-zero right operand yields the quotient `a / b` (for `/`, `÷`) or the
floating-point remainder `goMod a b` (for `%`), formatted.  (Values carry
the exact-rational idealization of `float64`; within the validated
character set a literal parses to zero exactly when its decimal value is
zero, as in the source.) -/
theorem C5_theorem (s : List Char) (a b : ℚ) (op : String)
    (hv : validateExpression s = none)
    (hp : parseExpression s = some (a, op, b))
    (hop : op = "/" ∨ op = "÷" ∨ op = "%") :
    (b = 0 → Calculate s = ("", some CalcError.divByZero)) ∧
    (b ≠ 0 → op ≠ "%" → Calculate s = (formatResult (a / b), none)) ∧
    (b ≠ 0 → op = "%" → Calculate s = (formatResult (goMod a b), none)) := by
  have hsoD : supportedOps "/" =
      some (fun a b => if b = 0 then Except.error CalcError.divByZero
        else Except.ok (a / b)) := rfl
  have hsoO : supportedOps "÷" =
      some (fun a b => if b = 0 then Except.error CalcError.divByZero
        else Except.ok (a / b)) := rfl
  have hsoM : supportedOps "%" =
      some (fun a b => if b = 0 then Except.error CalcError.divByZero
        else Except.ok (goMod a b)) := rfl
  rcases hop with h | h | h <;> subst h
  · refine ⟨fun hb => ?_, fun hb _ => ?_, fun _ he => absurd he (by decide)⟩
    · simp [Calculate, hv, hp, hsoD, hb]
    · simp [Calculate, hv, hp, hsoD, hb]
  · refine ⟨fun hb => ?_, fun hb _ => ?_, fun _ he => absurd he (by decide)⟩
    · simp [Calculate, hv, hp, hsoO, hb]
    · simp [Calculate, hv, hp, hsoO, hb]
  · refine ⟨fun hb => ?_, fun _ hne => absurd rfl hne, fun hb _ => ?_⟩
    · simp [Calculate, hv, hp, hsoM, hb]
    · simp [Calculate, hv, hp, hsoM, hb]

/-- C5, witness: `"1/0"` passes validation, tokenizes as a division with
right operand `0`, and fails with `DivisionByZero`. -/
theorem C5_witness :
    validateExpression (goStr "1/0") = none ∧
    parseExpression (goStr "1/0") = some (1, "/", 0) ∧
    Calculate (goStr "1/0") = ("", some CalcError.divByZero) :=
  ⟨by decide, by decide,
    (C5_theorem (goStr "1/0") 1 0 "/" (by decide) (by decide) (Or.inl rfl)).1 rfl⟩

/- ### Whitespace lemmas for C4 -/

/-- Removing characters never increases the byte length. -/
theorem goLen_filter_le (p : Char → Bool) (s : List Char) :
    goLen (s.filter p) ≤ goLen s := by
  induction s with
  | nil => simp [goLen]
  | cons c t ih =>
    rw [List.filter_cons]
    by_cases h : p c
    · simp only [h, if_pos] at *
      simp [goLen] at *
      omega
    · simp only [h] at *
      simp [goLen] at *
      omega

/-- `TrimSpace` yields the empty string exactly when every character is
white space. -/
theorem trimSpace_eq_nil_iff (s : List Char) :
    trimSpace s = [] ↔ ∀ c ∈ s, isUnicodeSpace c := by
  unfold trimSpace
  rw [List.reverse_eq_nil_iff, List.dropWhile_eq_nil_iff]
  simp only [List.mem_reverse]
  constructor
  · intro h c hc
    have hc2 : c ∈ s.takeWhile isUnicodeSpace ++ s.dropWhile isUnicodeSpace := by
      rw [List.takeWhile_append_dropWhile]
      exact hc
    rcases List.mem_append.mp hc2 with h1 | h1
    · exact List.mem_takeWhile_imp h1
    · exact h c h1
  · intro h c hc
    exact h c ((List.dropWhile_sublist isUnicodeSpace).subset hc)

/-- A character-wise predicate true on `' '` holds on every character of a
string exactly when it holds after the spaces are removed. -/
theorem all_iff_filter_space (P : Char → Bool) (hP : P ' ' = true)
    (s : List Char) :
    (∀ c ∈ s, P c) ↔ (∀ c ∈ s.filter (fun c => c != ' '), P c) := by
  constructor
  · exact fun h c hc => h c (List.mem_of_mem_filter hc)
  · intro h c hc
    by_cases hc' : c = ' '
    · rw [hc']
      exact hP
    · exact h c (List.mem_filter.mpr ⟨hc, by simp [hc']⟩)

/-- Filtering is idempotent. -/
theorem filter_idem (p : Char → Bool) (s : List Char) :
    (s.filter p).filter p = s.filter p := by
  induction s with
  | nil => rfl
  | cons c t ih =>
    by_cases h : p c <;> simp [List.filter_cons, h, ih]

/-- Under the length limit, validation is blind to space characters. -/
theorem validate_filter_space (s : List Char) (h : goLen s ≤ 100) :
    validateExpression (s.filter (fun c => c != ' ')) = validateExpression s := by
  unfold validateExpression
  have h1 : ¬ 100 < goLen s := by omega
  have h2 : ¬ 100 < goLen (s.filter (fun c => c != ' ')) := by
    have := goLen_filter_le (fun c => c != ' ') s
    omega
  rw [if_neg h1, if_neg h2]
  have h3 : trimSpace (s.filter (fun c => c != ' ')) = [] ↔ trimSpace s = [] := by
    rw [trimSpace_eq_nil_iff, trimSpace_eq_nil_iff]
    exact (all_iff_filter_space isUnicodeSpace (by decide) s).symm
  by_cases he : trimSpace s = []
  · rw [if_pos he, if_pos (h3.mpr he)]
  · rw [if_neg he, if_neg (fun hh => he (h3.mp hh))]
    have h5 : ((s.filter (fun c => c != ' ')).all isValidExprChar = true) ↔
        (s.all isValidExprChar = true) := by
      simp only [List.all_eq_true]
      exact (all_iff_filter_space isValidExprChar (by decide) s).symm
    by_cases hva : s.all isValidExprChar = true
    · rw [if_pos hva, if_pos (h5.mpr hva)]
    · rw [if_neg hva, if_neg (fun hh => hva (h5.mp hh))]

/-- C4, counterexample: the validator's `\s` class accepts a tab, but the
tokenizer strips only spaces, so `"2<TAB>+3"` (within the length limit)
fails with `NoOperatorFound` while the same input with all `\s` characters
removed succeeds with `"5"`. -/
theorem C4_counterexample :
    goLen (goStr "2\t+3") ≤ 100 ∧
    Calculate (goStr "2\t+3") = ("", some CalcError.noOperator) ∧
    Calculate ((goStr "2\t+3").filter (fun c => !(isRegexSpace c))) = ("5", none) := by
  decide

/-- C4, amended: the tokenizer strips only space characters (U+0020), not
the whole `\s` class; for every input within the byte-length limit,
`Calculate` returns the same outcome as on the same input with every
space character removed. -/
theorem C4_theorem (s : List Char) (h : goLen s ≤ 100) :
    Calculate s = Calculate (s.filter (fun c => c != ' ')) := by
  unfold Calculate
  rw [validate_filter_space s h]
  rw [show parseExpression (s.filter (fun c => c != ' ')) = parseExpression s from by
    unfold parseExpression
    rw [filter_idem]]

/-- C4, witness: `" 2 + 3 "` computes the same result as `"2+3"`. -/
theorem C4_witness :
    goLen (goStr " 2 + 3 ") ≤ 100 ∧
    Calculate (goStr " 2 + 3 ") =
      Calculate ((goStr " 2 + 3 ").filter (fun c => c != ' ')) :=
  ⟨by decide, C4_theorem (goStr " 2 + 3 ") (by decide)⟩

/- ### Lemmas for C1 -/

/-- A successful `+`/`-` candidate position sits on the operator character
and its predecessor is a digit or a closing parenthesis. -/
theorem signedSplitAt_prev {s : List Char} {op : Char} {i : Nat} {a b : ℚ}
    (h : signedSplitAt s op i = some (a, b)) :
    s.get? i = some op ∧
    ∃ p, s.get? (i - 1) = some p ∧ (('0' ≤ p ∧ p ≤ '9') ∨ p = ')') := by
  unfold signedSplitAt at h
  split at h
  · cases h
  · rename_i c heq
    split at h
    · rename_i hco
      split at h
      · cases h
      · rename_i p heq2
        split at h
        · rename_i hd
          exact ⟨by rw [heq, hco], p, heq2, hd⟩
        · cases h
    · cases h

/-- What the signed scan returns comes from a tried index. -/
theorem scanSignedAux_mem {s : List Char} {op : Char} {js : List Nat}
    {j : Nat} {a b : ℚ} (h : scanSignedAux s op js = some (j, a, b)) :
    j ∈ js ∧ signedSplitAt s op j = some (a, b) := by
  induction js with
  | nil => cases h
  | cons i rest ih =>
    unfold scanSignedAux at h
    rcases hs : signedSplitAt s op i with _ | ⟨x, y⟩ <;> rw [hs] at h
    · have := ih h
      exact ⟨List.mem_cons_of_mem _ this.1, this.2⟩
    · cases h
      exact ⟨List.mem_cons_self _ _, hs⟩

/-- C1: sign-vs-operator disambiguation.  `Calculate "-5+3"` succeeds with
`"-2"` and `Calculate "2*-3"` succeeds with `"-6"`; in general, whenever
the `+`/`-` scan of the tokenizer selects a split position, that position
is never the leading character and the character before it is a digit or
`')'` — so a leading sign or a sign right after another operator is never
taken as the binary operator. -/
theorem C1_theorem :
    Calculate (goStr "-5+3") = ("-2", none) ∧
    Calculate (goStr "2*-3") = ("-6", none) ∧
    (∀ (s : List Char) (c : Char) (j : Nat) (a b : ℚ),
      scanSigned s c = some (j, a, b) →
      1 ≤ j ∧ ∃ p, s.get? (j - 1) = some p ∧ (('0' ≤ p ∧ p ≤ '9') ∨ p = ')')) := by
  refine ⟨by decide, by decide, ?_⟩
  intro s c j a b h
  obtain ⟨hmem, hsplit⟩ := scanSignedAux_mem h
  obtain ⟨i, hi, hji⟩ := List.mem_range'.mp hmem
  exact ⟨by omega, (signedSplitAt_prev hsplit).2⟩

/-- C1, witness: in `"2-1"` the scan for `'-'` selects position 1, whose
predecessor `'2'` is a digit. -/
theorem C1_witness :
    scanSigned (goStr "2-1") '-' = some (1, 2, 1) ∧
    (1 ≤ 1 ∧ ∃ p, (goStr "2-1").get? (1 - 1) = some p ∧
      (('0' ≤ p ∧ p ≤ '9') ∨ p = ')')) :=
  ⟨by decide, C1_theorem.2.2 (goStr "2-1") '-' 1 2 1 (by decide)⟩

/- ### Lemmas for C8 -/

/-- Every character produced by the digit renderer is a decimal digit. -/
theorem natCharsAux_digits :
    ∀ (fuel n : Nat), ∀ c ∈ natCharsAux fuel n, ('0' ≤ c ∧ c ≤ '9') := by
  intro fuel
  induction fuel with
  | zero => intro n c hc; cases hc
  | succ f ih =>
    intro n c hc
    unfold natCharsAux at hc
    by_cases h : n < 10
    · rw [if_pos h] at hc
      simp only [List.mem_singleton] at hc
      subst hc
      interval_cases n <;> exact (by decide)
    · rw [if_neg h] at hc
      rcases List.mem_append.mp hc with h1 | h1
      · exact ih _ c h1
      · simp only [List.mem_singleton] at h1
        subst h1
        have hm : n % 10 < 10 := Nat.mod_lt _ (by omega)
        set m := n % 10 with hmdef
        clear_value m
        interval_cases m <;> exact (by decide)

/-- The integer rendering of `%.0f` contains no decimal point. -/
theorem renderInt_no_dot (n : ℤ) : '.' ∉ (renderInt n).data := by
  unfold renderInt
  intro hc
  rcases List.mem_append.mp hc with h1 | h1
  · by_cases hn : n < 0
    · rw [if_pos hn] at h1
      simp at h1
    · rw [if_neg hn] at h1
      cases h1
  · have := (natCharsAux_digits _ _ '.' h1).1
    exact absurd this (by decide)

/-- C8: result formatting.  `Calculate "2+3"` returns `"5"` and
`Calculate "10.5*2"` returns `"21"`; in general a result equal to its
(round-tripping) 64-bit integer representation is rendered as a plain
integer with no decimal point, and any other result is rendered by the
six-significant-digit general format `fmt6g`. -/
theorem C8_theorem :
    Calculate (goStr "2+3") = ("5", none) ∧
    Calculate (goStr "10.5*2") = ("21", none) ∧
    (∀ q : ℚ,
      (isInt64Exact q = true →
        formatResult q = renderInt q.num ∧ '.' ∉ (formatResult q).data) ∧
      (isInt64Exact q = false → formatResult q = fmt6g q)) := by
  refine ⟨by decide, by decide, fun q => ⟨fun h => ?_, fun h => ?_⟩⟩
  · constructor
    · simp [formatResult, h]
    · simp only [formatResult, h, if_pos]
      exact renderInt_no_dot q.num
  · simp [formatResult, h]

/-- C8, witness: the integer branch at `5` and the general branch at
`7/2`. -/
theorem C8_witness :
    isInt64Exact (5 : ℚ) = true ∧
    formatResult (5 : ℚ) = renderInt (5 : ℚ).num ∧
    '.' ∉ (formatResult (5 : ℚ)).data ∧
    isInt64Exact ((7 : ℚ) / 2) = false ∧
    formatResult ((7 : ℚ) / 2) = fmt6g ((7 : ℚ) / 2) :=
  ⟨by decide, ((C8_theorem.2.2 5).1 (by decide)).1,
    ((C8_theorem.2.2 5).1 (by decide)).2, by decide,
    (C8_theorem.2.2 ((7 : ℚ) / 2)).2 (by decide)⟩

/- ### Lemmas for C7 -/

/-- The characters that can appear in a string accepted by the modelled
`ParseFloat` grammar. -/
def isFloatChar (c : Char) : Bool :=
  c.isDigit || c == '.' || c == 'e' || c == 'E' || c == '+' || c == '-'

/-- A non-empty list is its head consed on its tail. -/
theorem head?_cons_tail {t : List Char} {c : Char} (h : t.head? = some c) :
    t = c :: t.tail := by
  cases t with
  | nil => cases h
  | cons d ts =>
    simp only [List.head?] at h
    cases h
    rfl

/-- A successful mantissa parse decomposes the input as consumed float
characters followed by the unconsumed rest. -/
theorem parseMantissa_chars {t : List Char} {m : ℚ} {rest : List Char}
    (h : parseMantissa t = some (m, rest)) :
    ∃ pre, t = pre ++ rest ∧ ∀ c ∈ pre, isFloatChar c := by
  unfold parseMantissa at h
  by_cases h1 : (t.dropWhile Char.isDigit).head? = some '.'
  · rw [if_pos h1] at h
    by_cases h2 : t.takeWhile Char.isDigit = [] ∧
        (t.dropWhile Char.isDigit).tail.takeWhile Char.isDigit = []
    · rw [if_pos h2] at h
      cases h
    · rw [if_neg h2] at h
      cases h
      refine ⟨t.takeWhile Char.isDigit ++
        '.' :: (t.dropWhile Char.isDigit).tail.takeWhile Char.isDigit, ?_, ?_⟩
      · conv_lhs => rw [← List.takeWhile_append_dropWhile (p := Char.isDigit) (l := t)]
        conv_lhs => rw [head?_cons_tail h1]
        conv_lhs =>
          rw [← List.takeWhile_append_dropWhile (p := Char.isDigit)
            (l := (t.dropWhile Char.isDigit).tail)]
        simp [List.append_assoc]
      · intro c hc
        rcases List.mem_append.mp hc with hd | hd
        · simp [isFloatChar, List.mem_takeWhile_imp hd]
        · rcases List.mem_cons.mp hd with hd1 | hd1
          · subst hd1; decide
          · simp [isFloatChar, List.mem_takeWhile_imp hd1]
  · rw [if_neg h1] at h
    by_cases h3 : t.takeWhile Char.isDigit = []
    · rw [if_pos h3] at h
      cases h
    · rw [if_neg h3] at h
      cases h
      refine ⟨t.takeWhile Char.isDigit, ?_, ?_⟩
      · rw [List.takeWhile_append_dropWhile]
      · intro c hc
        simp [isFloatChar, List.mem_takeWhile_imp hc]

/-- A successful exponent parse only consumes float characters. -/
theorem parseExponent_chars {t : List Char} {z : ℤ}
    (h : parseExponent t = some z) : ∀ c ∈ t, isFloatChar c := by
  unfold parseExponent at h
  by_cases h1 : t.head? = some '+'
  · rw [if_pos h1] at h
    by_cases h2 : t.tail ≠ [] ∧ t.tail.all Char.isDigit
    · intro c hc
      rw [head?_cons_tail h1] at hc
      rcases List.mem_cons.mp hc with hd | hd
      · subst hd; decide
      · simp [isFloatChar, List.all_eq_true.mp h2.2 c hd]
    · rw [if_neg h2] at h
      cases h
  · rw [if_neg h1] at h
    by_cases h3 : t.head? = some '-'
    · rw [if_pos h3] at h
      by_cases h4 : t.tail ≠ [] ∧ t.tail.all Char.isDigit
      · intro c hc
        rw [head?_cons_tail h3] at hc
        rcases List.mem_cons.mp hc with hd | hd
        · subst hd; decide
        · simp [isFloatChar, List.all_eq_true.mp h4.2 c hd]
      · rw [if_neg h4] at h
        cases h
    · rw [if_neg h3] at h
      by_cases h5 : t ≠ [] ∧ t.all Char.isDigit
      · intro c hc
        simp [isFloatChar, List.all_eq_true.mp h5.2 c hc]
      · rw [if_neg h5] at h
        cases h

/-- A successful unsigned parse only consumes float characters. -/
theorem parseUnsigned_chars {t : List Char} {q : ℚ}
    (h : parseUnsigned t = some q) : ∀ c ∈ t, isFloatChar c := by
  unfold parseUnsigned at h
  rcases hm : parseMantissa t with _ | ⟨m, rest⟩ <;> rw [hm] at h
  · cases h
  · change (if rest = [] then some m
      else if rest.head? = some 'e' ∨ rest.head? = some 'E' then
        (parseExponent rest.tail).map (fun ex => m * (10 : ℚ) ^ ex)
      else none) = some q at h
    obtain ⟨pre, hpre, hchars⟩ := parseMantissa_chars hm
    by_cases h1 : rest = []
    · subst h1
      intro c hc
      rw [hpre] at hc
      exact hchars c (by simpa using hc)
    · rw [if_neg h1] at h
      by_cases h2 : rest.head? = some 'e' ∨ rest.head? = some 'E'
      · rw [if_pos h2] at h
        obtain ⟨ex, hex, -⟩ := Option.map_eq_some'.mp h
        intro c hc
        rw [hpre] at hc
        rcases List.mem_append.mp hc with hd | hd
        · exact hchars c hd
        · rcases h2 with he | he <;> rw [head?_cons_tail he] at hd <;>
            rcases List.mem_cons.mp hd with hd1 | hd1
          · subst hd1; decide
          · exact parseExponent_chars hex c hd1
          · subst hd1; decide
          · exact parseExponent_chars hex c hd1
      · rw [if_neg h2] at h
        cases h

/-- A successful `ParseFloat` only consumes float characters. -/
theorem parseFloat_chars {t : List Char} {q : ℚ}
    (h : parseFloat t = some q) : ∀ c ∈ t, isFloatChar c := by
  unfold parseFloat at h
  by_cases h1 : t.head? = some '+'
  · rw [if_pos h1] at h
    intro c hc
    rw [head?_cons_tail h1] at hc
    rcases List.mem_cons.mp hc with hd | hd
    · subst hd; decide
    · exact parseUnsigned_chars h c hd
  · rw [if_neg h1] at h
    by_cases h2 : t.head? = some '-'
    · rw [if_pos h2] at h
      obtain ⟨x, hx, -⟩ := Option.map_eq_some'.mp h
      intro c hc
      rw [head?_cons_tail h2] at hc
      rcases List.mem_cons.mp hc with hd | hd
      · subst hd; decide
      · exact parseUnsigned_chars hx c hd
    · rw [if_neg h2] at h
      exact parseUnsigned_chars h

/-- A string containing a parenthesis is rejected by `ParseFloat`
(parentheses are not in the float grammar). -/
theorem parseFloat_paren_none {t : List Char} {c : Char} (hc : c ∈ t)
    (hpar : c = '(' ∨ c = ')') : parseFloat t = none := by
  rcases hq : parseFloat t with _ | q
  · rfl
  · have := parseFloat_chars hq c hc
    rcases hpar with h | h <;> subst h <;> exact absurd this (by decide)

/-- Dropping from a position described by `get?` exposes that element. -/
theorem drop_of_get? {s : List Char} {i : Nat} {ch : Char}
    (h : s.get? i = some ch) : s.drop i = ch :: s.drop (i + 1) := by
  induction s generalizing i with
  | nil => simp [List.get?] at h
  | cons d ts ih =>
    cases i with
    | zero =>
      simp only [List.get?] at h
      cases h
      rfl
    | succ j =>
      simp only [List.get?] at h
      simpa using ih h

/-- With a parenthesis anywhere in the string, no `+`/`-` candidate
position can split it into two parseable operands. -/
theorem signedSplitAt_paren {s : List Char} {op : Char} {c : Char} (i : Nat)
    (hop : op ≠ '(' ∧ op ≠ ')') (hc : c ∈ s) (hpar : c = '(' ∨ c = ')') :
    signedSplitAt s op i = none := by
  unfold signedSplitAt
  rcases hg : s.get? i with _ | ch
  · simp [hg]
  · simp only [hg]
    by_cases hco : ch = op
    · rw [if_pos hco]
      rcases hp : s.get? (i - 1) with _ | p
      · simp [hp]
      · simp only [hp]
        by_cases hd : ('0' ≤ p ∧ p ≤ '9') ∨ p = ')'
        · rw [if_pos hd]
          by_cases hdr : s.drop (i + 1) = []
          · rw [if_pos hdr]
          · rw [if_neg hdr]
            have hsp : s = s.take i ++ ch :: s.drop (i + 1) := by
              conv_lhs => rw [← List.take_append_drop i s]
              rw [drop_of_get? hg]
            rw [hsp] at hc
            rcases List.mem_append.mp hc with h1 | h1
            · rw [parseFloat_paren_none h1 hpar]
            · rcases List.mem_cons.mp h1 with h2 | h2
              · exfalso
                subst h2
                rw [hco] at hpar
                rcases hpar with h3 | h3
                · exact hop.1 h3
                · exact hop.2 h3
              · rw [parseFloat_paren_none h2 hpar]
                cases ha : parseFloat (s.take i) <;> simp [ha]
        · rw [if_neg hd]
    · rw [if_neg hco]

/-- The whole signed scan fails in the presence of a parenthesis. -/
theorem scanSignedAux_paren {s : List Char} {op c : Char}
    (hop : op ≠ '(' ∧ op ≠ ')') (hc : c ∈ s) (hpar : c = '(' ∨ c = ')') :
    ∀ js, scanSignedAux s op js = none := by
  intro js
  induction js with
  | nil => rfl
  | cons i rest ih =>
    unfold scanSignedAux
    rw [signedSplitAt_paren i hop hc hpar]
    exact ih

/-- Boolean prefix test gives an append decomposition. -/
theorem isPrefixOf_ex {l1 l2 : List Char} (h : l1.isPrefixOf l2 = true) :
    ∃ t2, l2 = l1 ++ t2 := by
  induction l1 generalizing l2 with
  | nil => exact ⟨l2, rfl⟩
  | cons c ts ih =>
    cases l2 with
    | nil => simp [List.isPrefixOf] at h
    | cons d ts2 =>
      simp only [List.isPrefixOf, Bool.and_eq_true, beq_iff_eq] at h
      obtain ⟨t3, ht3⟩ := ih h.2
      exact ⟨t3, by rw [← h.1, ht3, List.cons_append]⟩

/-- A found index is past the start offset, and the pattern occurs there. -/
theorem firstIndexOfAux_spec {pat s : List Char} {i j : Nat}
    (h : firstIndexOfAux pat s i = some j) :
    i ≤ j ∧ pat.isPrefixOf (s.drop (j - i)) = true := by
  induction s generalizing i with
  | nil =>
    unfold firstIndexOfAux at h
    by_cases hp : pat.isPrefixOf ([] : List Char) = true
    · rw [if_pos hp] at h
      cases h
      exact ⟨Nat.le_refl _, by simpa using hp⟩
    · rw [if_neg hp] at h
      cases h
  | cons d rest ih =>
    unfold firstIndexOfAux at h
    by_cases hp : pat.isPrefixOf (d :: rest) = true
    · rw [if_pos hp] at h
      cases h
      exact ⟨Nat.le_refl _, by simpa using hp⟩
    · rw [if_neg hp] at h
      obtain ⟨h1, h2⟩ := ih h
      refine ⟨by omega, ?_⟩
      have hji : j - i = (j - (i + 1)) + 1 := by omega
      rw [hji]
      simpa using h2

/-- With a parenthesis anywhere in the string and an operator pattern not
containing parentheses, the first-occurrence split fails. -/
theorem unsignedSplit_paren {pat s : List Char} {c : Char}
    (hpat : c ∉ pat) (hc : c ∈ s) (hpar : c = '(' ∨ c = ')') :
    unsignedSplit pat s = none := by
  unfold unsignedSplit
  rcases hf : firstIndexOf pat s with _ | idx
  · simp [hf]
  · simp only [hf]
    obtain ⟨-, hpre⟩ := firstIndexOfAux_spec (show firstIndexOfAux pat s 0 = some idx from hf)
    obtain ⟨t2, ht2⟩ := isPrefixOf_ex (by simpa using hpre)
    by_cases h0 : 0 < idx
    · rw [if_pos h0]
      by_cases hdr : s.drop (idx + pat.length) = []
      · rw [if_pos hdr]
      · rw [if_neg hdr]
        have ht2' : t2 = s.drop (idx + pat.length) := by
          have h3 : (s.drop idx).drop pat.length = t2 := by
            rw [ht2, List.drop_left]
          rw [← h3, List.drop_drop]
        have hsp : s = s.take idx ++ pat ++ s.drop (idx + pat.length) := by
          conv_lhs => rw [← List.take_append_drop idx s]
          rw [ht2, ht2', ← List.append_assoc]
        rw [hsp] at hc
        rcases List.mem_append.mp hc with h1 | h1
        · rcases List.mem_append.mp h1 with h2 | h2
          · rw [parseFloat_paren_none h2 hpar]
          · exact absurd h2 hpat
        · rw [parseFloat_paren_none h1 hpar]
          cases ha : parseFloat (s.take idx) <;> simp [ha]
    · rw [if_neg h0]

/-- No operator of the priority list can split a string containing a
parenthesis. -/
theorem tryOp_paren {op : String} {s : List Char} {c : Char}
    (hmem : op ∈ operators) (hc : c ∈ s) (hpar : c = '(' ∨ c = ')') :
    tryOp op s = none := by
  have hps : ∀ pat : List Char, c ∉ pat → unsignedSplit pat s = none :=
    fun pat hp => unsignedSplit_paren hp hc hpar
  have hsc : ∀ opc : Char, opc ≠ '(' → opc ≠ ')' → scanSigned s opc = none :=
    fun opc h1 h2 => scanSignedAux_paren ⟨h1, h2⟩ hc hpar _
  have hcne : ∀ l : List Char, '(' ∉ l → ')' ∉ l → c ∉ l := by
    intro l h1 h2
    rcases hpar with h | h <;> subst h
    · exact h1
    · exact h2
  fin_cases hmem
  · unfold tryOp
    rw [if_neg (by decide), if_neg (by decide)]
    exact hps _ (hcne _ (by decide) (by decide))
  · unfold tryOp
    rw [if_neg (by decide), if_neg (by decide)]
    exact hps _ (hcne _ (by decide) (by decide))
  · unfold tryOp
    rw [if_neg (by decide), if_neg (by decide)]
    exact hps _ (hcne _ (by decide) (by decide))
  · unfold tryOp
    rw [if_neg (by decide), if_neg (by decide)]
    exact hps _ (hcne _ (by decide) (by decide))
  · unfold tryOp
    rw [if_neg (by decide), if_neg (by decide)]
    exact hps _ (hcne _ (by decide) (by decide))
  · unfold tryOp
    rw [if_neg (by decide), if_neg (by decide)]
    exact hps _ (hcne _ (by decide) (by decide))
  · unfold tryOp
    rw [if_neg (by decide), if_neg (by decide)]
    exact hps _ (hcne _ (by decide) (by decide))
  · unfold tryOp
    rw [if_neg (by decide), if_pos rfl]
    rw [hsc '+' (by decide) (by decide)]
    rfl
  · unfold tryOp
    rw [if_pos rfl]
    rw [hsc '-' (by decide) (by decide)]
    rfl

/-- If every operator fails, the whole priority scan fails. -/
theorem tryOps_none {L : List String} {s : List Char}
    (h : ∀ op ∈ L, tryOp op s = none) : tryOps L s = none := by
  induction L with
  | nil => rfl
  | cons op rest ih =>
    unfold tryOps
    rw [h op (List.mem_cons_self _ _)]
    exact ih (fun o ho => h o (List.mem_cons_of_mem _ ho))

/-- Tokenization fails on any string containing a parenthesis. -/
theorem parseExpression_paren {s : List Char} {c : Char} (hc : c ∈ s)
    (hpar : c = '(' ∨ c = ')') : parseExpression s = none := by
  unfold parseExpression
  apply tryOps_none
  intro op hop
  refine tryOp_paren hop ?_ hpar
  refine List.mem_filter.mpr ⟨hc, ?_⟩
  rcases hpar with h | h <;> subst h <;> decide

/-- C7: an input that passes validation and contains a parenthesis always
fails at the tokenization stage with `NoOperatorFound` — it is never
rejected as `InvalidCharacters` and never succeeds, because every
candidate operator split leaves the parenthesis inside one of the two
operand substrings, which then fails the numeric parse. -/
theorem C7_theorem (s : List Char) (hv : validateExpression s = none)
    (hc : '(' ∈ s ∨ ')' ∈ s) :
    Calculate s = ("", some CalcError.noOperator) := by
  have hp : parseExpression s = none := by
    rcases hc with h | h
    · exact parseExpression_paren h (Or.inl rfl)
    · exact parseExpression_paren h (Or.inr rfl)
  simp [Calculate, hv, hp]

/-- C7, witness: `"(2)+1"` passes validation, contains `'('`, and fails
with `NoOperatorFound`. -/
theorem C7_witness :
    validateExpression (goStr "(2)+1") = none ∧ '(' ∈ goStr "(2)+1" ∧
    Calculate (goStr "(2)+1") = ("", some CalcError.noOperator) :=
  ⟨by decide, by decide, C7_theorem _ (by decide) (Or.inl (by decide))⟩

/-- C3, witness: the amended byte-length criterion applied at a concrete
over-long input. -/
theorem C3_witness :
    100 < goLen (List.replicate 51 '×') ∧
    (Calculate (List.replicate 51 '×')).2 = some CalcError.tooLong :=
  ⟨by decide, (C3_theorem (List.replicate 51 '×')).mpr (by decide)⟩
